import Mathlib

/-!
Verification of the skillkit session-tracking core: the activity log,
snapshot store, lineage builder, timeline builder, and the agent-label
resolution shared by the handoff builder and session explainer.

Modelling conventions.  ISO-8601 timestamp strings are modelled as `Int`
millisecond values (the code always compares them through `new Date(x)`),
JavaScript numbers used as counts are `Nat`, fallible operations return
`Except String`, and the on-disk snapshot directory is an explicit record
threaded through the snapshot operations.  JavaScript `Map`s (which keep
insertion order and update keys in place) are association lists with the
update function `mapSet`; JavaScript `Set`s (insertion-ordered) are lists
grown with `setAdd`; `[...new Set(xs)]` is `jsSetDedup xs`.  `Array.sort`
with a comparator is stable, so it is modelled by `List.insertionSort`
with the relation "comparator ≤ 0", which is stable with the same tie
behaviour.
-/

/-- Lookup in an insertion-ordered string-keyed map (JS `Map.get`). -/
def mapGet {α : Type} (m : List (String × α)) (k : String) : Option α :=
  match m with
  | [] => none
  | (k₂, v) :: rest => if k₂ = k then some v else mapGet rest k

/-- Update in an insertion-ordered string-keyed map (JS `Map.set`): an
existing key keeps its position, a new key is appended. -/
def mapSet {α : Type} (m : List (String × α)) (k : String) (v : α) : List (String × α) :=
  match m with
  | [] => [(k, v)]
  | (k₂, w) :: rest => if k₂ = k then (k, v) :: rest else (k₂, w) :: mapSet rest k v

/-- JS `Set.add` on an insertion-ordered set: append if absent. -/
def setAdd (s : List String) (x : String) : List String :=
  if x ∈ s then s else s ++ [x]

/-- Spread of a JS `Set` built from a list (`[...new Set(l)]`): walk the
list keeping each element not seen before, in order. -/
def jsSetDedupAux {α : Type} [DecidableEq α] (seen : List α) : List α → List α
  | [] => []
  | a :: l => if a ∈ seen then jsSetDedupAux seen l else a :: jsSetDedupAux (a :: seen) l

/-- Order-preserving first-occurrence deduplication as implemented by
`[...new Set(l)]`. -/
def jsSetDedup {α : Type} [DecidableEq α] (l : List α) : List α :=
  jsSetDedupAux [] l

/-- Specification-side formulation of order-preserving first-occurrence
deduplication: keep the head and delete its later duplicates. -/
def keepFirsts {α : Type} [DecidableEq α] : List α → List α
  | [] => []
  | a :: l => a :: (keepFirsts l).filter (fun b => b ≠ a)

theorem jsSetDedupAux_nodup {α : Type} [DecidableEq α] (l : List α) :
    ∀ seen : List α, (jsSetDedupAux seen l).Nodup ∧ ∀ x ∈ jsSetDedupAux seen l, x ∉ seen := by
  induction l with
  | nil => intro seen; simp [jsSetDedupAux]
  | cons a t ih =>
    intro seen
    by_cases ha : a ∈ seen
    · simpa [jsSetDedupAux, ha] using ih seen
    · have h := ih (a :: seen)
      refine ⟨?_, ?_⟩
      · simp only [jsSetDedupAux, ha, if_false, List.nodup_cons]
        exact ⟨fun hx => (h.2 a hx) (List.mem_cons_self a seen), h.1⟩
      · intro x hx
        simp only [jsSetDedupAux, ha, if_false, List.mem_cons] at hx
        rcases hx with rfl | hx
        · exact ha
        · intro hs
          exact (h.2 x hx) (List.mem_cons_of_mem a hs)

theorem jsSetDedup_nodup {α : Type} [DecidableEq α] (l : List α) : (jsSetDedup l).Nodup :=
  (jsSetDedupAux_nodup l []).1

theorem keepFirsts_filter {α : Type} [DecidableEq α] (p : α → Bool) (l : List α) :
    keepFirsts (l.filter p) = (keepFirsts l).filter p := by
  induction l with
  | nil => simp [keepFirsts]
  | cons b t ih =>
    by_cases hb : p b = true
    · rw [List.filter_cons_of_pos hb]
      simp only [keepFirsts, ih]
      rw [List.filter_cons_of_pos hb, List.filter_filter, List.filter_filter]
      congr 1
      apply List.filter_congr
      intro x _
      exact Bool.and_comm _ _
    · have hb0 : p b = false := by simpa using hb
      rw [List.filter_cons_of_neg (by simp [hb0])]
      simp only [keepFirsts]
      rw [List.filter_cons_of_neg (by simp [hb0]), ih, List.filter_filter]
      apply List.filter_congr
      intro x _
      by_cases hxb : x = b
      · subst hxb; simp [hb0]
      · simp [hxb]

theorem jsSetDedupAux_eq_keepFirsts {α : Type} [DecidableEq α] (l : List α) :
    ∀ seen : List α, jsSetDedupAux seen l = keepFirsts (l.filter (fun b => decide (b ∉ seen))) := by
  induction l with
  | nil => intro seen; simp [jsSetDedupAux, keepFirsts]
  | cons a t ih =>
    intro seen
    by_cases ha : a ∈ seen
    · rw [List.filter_cons_of_neg (by simp [ha]), ← ih seen]
      simp [jsSetDedupAux, ha]
    · rw [List.filter_cons_of_pos (by simp [ha])]
      simp only [jsSetDedupAux, ha, if_false, keepFirsts]
      rw [ih (a :: seen)]
      congr 1
      rw [← keepFirsts_filter, List.filter_filter]
      apply congrArg keepFirsts
      apply List.filter_congr
      intro b _
      by_cases h1 : b = a <;> by_cases h2 : b ∈ seen <;> simp [h1, h2]

theorem jsSetDedup_eq_keepFirsts {α : Type} [DecidableEq α] (l : List α) :
    jsSetDedup l = keepFirsts l := by
  have h := jsSetDedupAux_eq_keepFirsts l []
  simpa [jsSetDedup] using h

/-- First-match behaviour of `List.find?` over a split list. -/
theorem find?_append_first {α : Type} (p : α → Bool) (l₁ l₂ : List α) (a : α)
    (ha : p a = true) (h : ∀ b ∈ l₁, p b = false) :
    (l₁ ++ a :: l₂).find? p = some a := by
  induction l₁ with
  | nil => simp [List.find?_cons, ha]
  | cons b t ih =>
    have hb := h b (List.mem_cons_self b t)
    simp only [List.cons_append, List.find?_cons, hb]
    exact ih fun c hc => h c (List.mem_cons_of_mem b hc)

/- ### Activity log (activity-log.ts) -/

/-- One row of the activity log: one git commit with the skills active at
commit time. -/
structure SkillActivity where
  commitSha : String
  committedAt : Int
  activeSkills : List String
  filesChanged : List String
  message : String
deriving DecidableEq, Repr

/-- Backing document of the activity log. -/
structure ActivityLogData where
  version : Nat
  activities : List SkillActivity
deriving DecidableEq, Repr

/-- Argument record of `ActivityLog.record`. -/
structure RecordEntry where
  commitSha : String
  message : String
  activeSkills : List String
  filesChanged : List String
deriving DecidableEq, Repr

namespace ActivityLog

/-- The activity row built by `record` (`committedAt` is the current time). -/
def mkActivity (e : RecordEntry) (now : Int) : SkillActivity :=
  { commitSha := e.commitSha
    committedAt := now
    activeSkills := e.activeSkills
    filesChanged := e.filesChanged
    message := e.message }

/-- `record`: unshift the new activity, then truncate to 500 entries when
the list has grown beyond 500. -/
def record (e : RecordEntry) (now : Int) (data : ActivityLogData) : ActivityLogData :=
  let acts := mkActivity e now :: data.activities
  { data with activities := if acts.length > 500 then acts.take 500 else acts }

/-- The match predicate of `getByCommit`: exact SHA or prefix.  JS
`String.startsWith` is modelled on the character lists. -/
def commitMatches (sha : String) (a : SkillActivity) : Bool :=
  a.commitSha == sha || sha.data.isPrefixOf a.commitSha.data

/-- `getByCommit`: `undefined` for arguments shorter than 4 characters,
else the first stored activity (most recent first) matching by exact SHA
or prefix. -/
def getByCommit (sha : String) (data : ActivityLogData) : Option SkillActivity :=
  if sha.length < 4 then none
  else data.activities.find? (commitMatches sha)

/-- `getRecent(limit)`: prefix slice of the stored activities. -/
def getRecent (limit : Nat) (data : ActivityLogData) : List SkillActivity :=
  data.activities.take limit

end ActivityLog

/-- C5: `record` prepends the new activity and caps the store at 500:
the result never exceeds 500 entries, the new entry is first, recording
onto fewer than 500 stored entries keeps them all, and recording onto
exactly 500 stored entries keeps the first 499 old ones (evicting the
oldest, which is last in this most-recent-first list). -/
theorem activityLog_record_cap_spec (e : RecordEntry) (now : Int) (data : ActivityLogData) :
    (ActivityLog.record e now data).activities.length ≤ 500 ∧
    (ActivityLog.record e now data).activities.head? = some (ActivityLog.mkActivity e now) ∧
    (data.activities.length < 500 →
      (ActivityLog.record e now data).activities
        = ActivityLog.mkActivity e now :: data.activities) ∧
    (data.activities.length = 500 →
      (ActivityLog.record e now data).activities
        = ActivityLog.mkActivity e now :: data.activities.take 499) := by
  have hrec : (ActivityLog.record e now data).activities
      = (if (ActivityLog.mkActivity e now :: data.activities).length > 500
         then (ActivityLog.mkActivity e now :: data.activities).take 500
         else ActivityLog.mkActivity e now :: data.activities) := rfl
  by_cases h : (ActivityLog.mkActivity e now :: data.activities).length > 500
  · rw [hrec, if_pos h]
    refine ⟨?_, rfl, ?_, fun _ => rfl⟩
    · rw [List.length_take]
      exact Nat.min_le_left _ _
    · intro hlt
      exfalso
      simp only [List.length_cons, gt_iff_lt] at h
      omega
  · rw [hrec, if_neg h]
    refine ⟨?_, rfl, fun _ => rfl, ?_⟩
    · simp only [List.length_cons, gt_iff_lt, not_lt] at h
      simpa using h
    · intro h500
      exfalso
      simp only [List.length_cons, gt_iff_lt, not_lt, h500] at h
      omega

/-- Witness for C5 at a concrete 500-entry log. -/
def c5exampleActivity : SkillActivity :=
  { commitSha := "deadbeef", committedAt := 0, activeSkills := [], filesChanged := [], message := "m" }

/-- Concrete 500-entry activity log used by the C5 witness. -/
def c5log500 : ActivityLogData :=
  { version := 1, activities := List.replicate 500 c5exampleActivity }

/-- Concrete record argument used by the C5 witness. -/
def c5entry : RecordEntry :=
  { commitSha := "cafebabe", message := "msg", activeSkills := [], filesChanged := [] }

/-- Witness for C5: recording a 501st activity onto a full 500-entry log
keeps exactly the new entry plus the first 499 old ones. -/
theorem activityLog_record_cap_spec_witness :
    (ActivityLog.record c5entry 7 c5log500).activities
      = ActivityLog.mkActivity c5entry 7 :: c5log500.activities.take 499 :=
  (activityLog_record_cap_spec c5entry 7 c5log500).2.2.2
    (List.length_replicate 500 c5exampleActivity)

/-- Stored activity with a 3-character commit SHA, exhibiting the C2
counterexample. -/
def c2shortActivity : SkillActivity :=
  { commitSha := "abc", committedAt := 0, activeSkills := ["s"], filesChanged := [], message := "m" }

/-- Concrete log used by the C2 counterexample. -/
def c2log : ActivityLogData :=
  { version := 1, activities := [c2shortActivity] }

/-- C2 counterexample: the claim says an exact-SHA match succeeds
regardless of the argument's length, but `getByCommit` returns nothing
for the stored exact SHA "abc" because the argument is shorter than 4
characters. -/
theorem activityLog_getByCommit_short_exact_cex :
    c2shortActivity.commitSha = "abc" ∧
    c2shortActivity ∈ c2log.activities ∧
    ActivityLog.getByCommit "abc" c2log = none := by
  refine ⟨rfl, by simp [c2log], rfl⟩

/-- C2 (amended): `getByCommit sha` returns nothing whenever `sha` has
fewer than 4 characters (even for an exact match); for `sha` of length at
least 4 any returned activity is a stored one matching by exact SHA or
prefix, and the first matching activity in storage order (most recent
first) is the one returned. -/
theorem activityLog_getByCommit_spec (sha : String) (data : ActivityLogData) :
    (sha.length < 4 → ActivityLog.getByCommit sha data = none) ∧
    (4 ≤ sha.length → ∀ a, ActivityLog.getByCommit sha data = some a →
      a ∈ data.activities ∧ ActivityLog.commitMatches sha a = true) ∧
    (4 ≤ sha.length → ∀ (l₁ l₂ : List SkillActivity) (a : SkillActivity),
      data.activities = l₁ ++ a :: l₂ →
      ActivityLog.commitMatches sha a = true →
      (∀ b ∈ l₁, ActivityLog.commitMatches sha b = false) →
      ActivityLog.getByCommit sha data = some a) := by
  refine ⟨?_, ?_, ?_⟩
  · intro h
    simp only [ActivityLog.getByCommit]
    exact if_pos h
  · intro h a hfind
    simp only [ActivityLog.getByCommit] at hfind
    rw [if_neg (by omega)] at hfind
    exact ⟨List.mem_of_find?_eq_some hfind, List.find?_some hfind⟩
  · intro h l₁ l₂ a hsplit hmatch hprev
    simp only [ActivityLog.getByCommit]
    rw [if_neg (by omega), hsplit]
    exact find?_append_first _ l₁ l₂ a hmatch hprev

/-- Stored activity used by the C2 amended-claim witness. -/
def c2longActivity : SkillActivity :=
  { commitSha := "abcd1234", committedAt := 0, activeSkills := [], filesChanged := [], message := "" }

/-- Witness for C2 (amended) at a concrete 4-character prefix query. -/
theorem activityLog_getByCommit_spec_witness :
    ActivityLog.getByCommit "abcd" { version := 1, activities := [c2longActivity] }
      = some c2longActivity :=
  (activityLog_getByCommit_spec "abcd" { version := 1, activities := [c2longActivity] }).2.2
    (by decide) [] [] c2longActivity rfl (by decide) (by intro b hb; cases hb)

/- ### Session state model (types.ts) -/

/-- Status of a task in execution. -/
inductive TaskStatus
  | pending
  | in_progress
  | completed
  | failed
  | paused
deriving DecidableEq, Repr

/-- Task type. -/
inductive TaskType
  | auto
  | checkpointHumanVerify
  | checkpointDecision
  | checkpointHumanAction
deriving DecidableEq, Repr

/-- A single task within a skill execution. -/
structure SessionTask where
  id : String
  name : String
  type : TaskType
  status : TaskStatus
  startedAt : Option Int := none
  completedAt : Option Int := none
  error : Option String := none
  output : Option String := none
  filesModified : Option (List String) := none
  commitSha : Option String := none
deriving DecidableEq, Repr

/-- Status of the current execution. -/
inductive ExecStatus
  | running
  | paused
  | completed
  | failed
deriving DecidableEq, Repr

/-- Current skill execution state. -/
structure CurrentExecution where
  skillName : String
  skillSource : String
  currentStep : Nat
  totalSteps : Nat
  status : ExecStatus
  startedAt : Int
  pausedAt : Option Int := none
  tasks : List SessionTask
deriving DecidableEq, Repr

/-- Final status of a historical execution. -/
inductive HistStatus
  | completed
  | failed
  | cancelled
deriving DecidableEq, Repr

/-- Historical execution record. -/
structure ExecutionHistory where
  skillName : String
  skillSource : String
  completedAt : Int
  durationMs : Int
  status : HistStatus
  commits : List String
  filesModified : List String
  error : Option String := none
deriving DecidableEq, Repr

/-- User decision made during skill execution. -/
structure SessionDecision where
  key : String
  value : String
  madeAt : Int
  skillName : Option String := none
deriving DecidableEq, Repr

/-- Full session state. -/
structure SessionState where
  version : Nat := 1
  lastActivity : Int
  projectPath : String
  currentExecution : Option CurrentExecution := none
  history : List ExecutionHistory
  decisions : List SessionDecision := []
deriving DecidableEq, Repr

/- ### Snapshot store (snapshot-manager.ts) -/

/-- Observation record as copied into a snapshot (the `content` payload,
unused by any claim, is modelled as a string association list). -/
structure SnapObservation where
  id : String
  timestamp : Int
  sessionId : String
  agent : String
  type : String
  content : List (String × String)
  relevance : Int
deriving DecidableEq, Repr

/-- Parsed form of one snapshot file.  Fields the code guards with truthy
or presence checks (`name`, `createdAt`, `sessionState`, `observations`)
are optional, since a parsed YAML document may lack them. -/
structure SessionSnapshotFile where
  version : Nat
  name : Option String
  createdAt : Option Int
  description : Option String
  sessionState : Option SessionState
  observations : Option (List SnapObservation)
deriving DecidableEq, Repr

/-- State of the snapshots directory.  `files` maps the snapshot base name
(the on-disk file is `<base>.yaml`; this directory holds only such files,
so the `endsWith('.yaml')` readdir filter is the identity here) to its
parsed content, `none` standing for an unparsable file. -/
structure SnapshotDir where
  dirExists : Bool
  files : List (String × Option SessionSnapshotFile)
deriving DecidableEq, Repr

/-- Entry of `SnapshotManager.list`. -/
structure SnapListEntry where
  name : String
  createdAt : Int
  description : Option String
  skillCount : Nat
deriving DecidableEq, Repr

namespace SnapshotManager

/-- Character class of the safe-name pattern `[a-zA-Z0-9_-]`. -/
def isSafeChar (c : Char) : Bool :=
  ('a' ≤ c && c ≤ 'z') || ('A' ≤ c && c ≤ 'Z') || ('0' ≤ c && c ≤ '9') || c == '_' || c == '-'

/-- The guard of `sanitizeName`: the name is truthy (non-empty) and every
character is in the safe class, i.e. it matches `[a-zA-Z0-9_-]+` anchored
at both ends. -/
def isSafeName (name : String) : Bool :=
  !(name == "") && name.data.all isSafeChar

/-- Error message raised for an unsafe snapshot name. -/
def invalidNameMsg (name : String) : String :=
  "Invalid snapshot name: " ++ name ++ ". Use only letters, numbers, hyphens, and underscores."

/-- `sanitizeName`: return the name unchanged when safe, raise otherwise. -/
def sanitizeName (name : String) : Except String String :=
  if isSafeName name then .ok name else .error (invalidNameMsg name)

/-- `ensureDir`: create the snapshots directory if absent. -/
def ensureDir (fs : SnapshotDir) : SnapshotDir :=
  { fs with dirExists := true }

/-- `existsSync` on a snapshot path: the directory exists and holds the
file. -/
def fileExists (fs : SnapshotDir) (key : String) : Bool :=
  fs.dirExists && (mapGet fs.files key).isSome

/-- `save`: ensure the directory exists, then validate the name (via
`getPath`), then write the serialized snapshot, overwriting any existing
one.  Returns the raised condition (if any) and the resulting directory
state. -/
def save (name : String) (state : SessionState) (obs : List SnapObservation)
    (desc : Option String) (now : Int) (fs : SnapshotDir) :
    Except String Unit × SnapshotDir :=
  let fs1 := ensureDir fs
  match sanitizeName name with
  | .error e => (.error e, fs1)
  | .ok safe =>
    let file : SessionSnapshotFile :=
      { version := 1
        name := some name
        createdAt := some now
        description := desc
        sessionState := some state
        observations := some obs }
    (.ok (), { fs1 with files := mapSet fs1.files safe (some file) })

/-- `restore`: validate the name, fail "not found" when no file exists,
"failed to read" when it cannot be parsed, "corrupted or invalid" when the
parsed structure lacks `sessionState` or `observations`, else return the
stored pair.  Never mutates the directory. -/
def restore (name : String) (fs : SnapshotDir) :
    Except String (SessionState × List SnapObservation) :=
  match sanitizeName name with
  | .error e => .error e
  | .ok safe =>
    if fileExists fs safe then
      match mapGet fs.files safe with
      | some (some file) =>
        match file.sessionState, file.observations with
        | some st, some obs => .ok (st, obs)
        | _, _ => .error ("Snapshot " ++ name ++ " is corrupted or invalid")
      | _ => .error ("Failed to read snapshot " ++ name)
    else .error ("Snapshot " ++ name ++ " not found")

/-- `delete`: validate the name, then remove the file when present,
reporting whether one was removed. -/
def delete (name : String) (fs : SnapshotDir) : Except String Bool × SnapshotDir :=
  match sanitizeName name with
  | .error e => (.error e, fs)
  | .ok safe =>
    if fileExists fs safe then
      (.ok true, { fs with files := fs.files.filter (fun p => !(p.1 == safe)) })
    else (.ok false, fs)

/-- `exists`: validate the name, then report file existence (named
`snapExists` because `exists` is reserved in Lean). -/
def snapExists (name : String) (fs : SnapshotDir) : Except String Bool :=
  match sanitizeName name with
  | .error e => .error e
  | .ok safe => .ok (fileExists fs safe)

/-- Descending creation-time order used by `list` (its comparator is
`timeB - timeA`, and the sort is stable). -/
def snapDescLE (a b : SnapListEntry) : Prop :=
  b.createdAt ≤ a.createdAt

instance : DecidableRel snapDescLE := fun a b => Int.decLe b.createdAt a.createdAt

instance : IsTotal SnapListEntry snapDescLE :=
  ⟨fun a b => (Int.le_total b.createdAt a.createdAt).elim Or.inl Or.inr⟩

instance : IsTrans SnapListEntry snapDescLE :=
  ⟨fun _ _ _ h₁ h₂ => le_trans h₂ h₁⟩

/-- Parse one directory entry for `list`: unparsable files and files
without a creation timestamp are skipped; the entry name falls back to
the file base name, and `skillCount` is the stored history length (0 when
the state is missing). -/
def listEntry (p : String × Option SessionSnapshotFile) : Option SnapListEntry :=
  match p.2 with
  | none => none
  | some file =>
    match file.createdAt with
    | none => none
    | some t =>
      some { name := file.name.getD p.1
             createdAt := t
             description := file.description
             skillCount := (file.sessionState.map (fun st => st.history.length)).getD 0 }

/-- `list`: empty when the directory is absent, else the parsed entries
sorted by creation timestamp descending. -/
def list (fs : SnapshotDir) : List SnapListEntry :=
  if fs.dirExists then
    List.insertionSort snapDescLE (fs.files.filterMap listEntry)
  else []

end SnapshotManager

theorem mapGet_mapSet_self {α : Type} (m : List (String × α)) (k : String) (v : α) :
    mapGet (mapSet m k v) k = some v := by
  induction m with
  | nil => simp [mapSet, mapGet]
  | cons p rest ih =>
    by_cases h : p.1 = k
    · simp [mapSet, mapGet, h]
    · simp only [mapSet, mapGet, h, if_false]
      exact ih

theorem mem_mapSet_self {α : Type} (m : List (String × α)) (k : String) (v : α) :
    (k, v) ∈ mapSet m k v := by
  induction m with
  | nil => simp [mapSet]
  | cons p rest ih =>
    by_cases h : p.1 = k
    · simp [mapSet, h]
    · simp only [mapSet, h, if_false, List.mem_cons]
      exact Or.inr ih

/-- Session state used by the C3 counterexample and witness. -/
def c3state : SessionState :=
  { lastActivity := 0, projectPath := "p", history := [] }

/-- C3 counterexample: the claim says `save` on an invalid name raises
before performing any filesystem effect, but `save` first ensures the
snapshots directory exists: starting from a state without the directory,
`save "a b"` raises the invalid-name error and yet the directory has been
created. -/
theorem snapshot_invalid_name_fs_effect_cex :
    (SnapshotManager.save "a b" c3state [] none 0 ⟨false, []⟩).1
      = .error (SnapshotManager.invalidNameMsg "a b") ∧
    (SnapshotManager.save "a b" c3state [] none 0 ⟨false, []⟩).2.dirExists = true ∧
    (false : Bool) = false := ⟨rfl, rfl, rfl⟩

/-- C3 (amended): on a name outside the safe pattern, `restore`, `delete`
and `exists` raise the invalid-name error without touching the directory
state, and `save` raises the invalid-name error writing no file — though
it first ensures the snapshots directory exists, so the directory itself
may be created before the error; on the safe name "a-b_2", `exists` does
not raise. -/
theorem snapshot_invalid_name_spec (name : String) (st : SessionState)
    (obs : List SnapObservation) (desc : Option String) (now : Int) (fs : SnapshotDir)
    (hname : SnapshotManager.isSafeName name = false) :
    (SnapshotManager.save name st obs desc now fs).1
        = .error (SnapshotManager.invalidNameMsg name) ∧
    (SnapshotManager.save name st obs desc now fs).2.files = fs.files ∧
    SnapshotManager.restore name fs = .error (SnapshotManager.invalidNameMsg name) ∧
    SnapshotManager.delete name fs = (.error (SnapshotManager.invalidNameMsg name), fs) ∧
    SnapshotManager.snapExists name fs = .error (SnapshotManager.invalidNameMsg name) ∧
    ∃ b, SnapshotManager.snapExists "a-b_2" fs = .ok b := by
  have hsan : SnapshotManager.sanitizeName name
      = .error (SnapshotManager.invalidNameMsg name) := by
    simp [SnapshotManager.sanitizeName, hname]
  refine ⟨?_, ?_, ?_, ?_, ?_, ?_⟩
  · simp [SnapshotManager.save, hsan]
  · simp [SnapshotManager.save, hsan, SnapshotManager.ensureDir]
  · simp [SnapshotManager.restore, hsan]
  · simp [SnapshotManager.delete, hsan]
  · simp [SnapshotManager.snapExists, hsan]
  · refine ⟨SnapshotManager.fileExists fs "a-b_2", ?_⟩
    simp [SnapshotManager.snapExists, SnapshotManager.sanitizeName,
      show SnapshotManager.isSafeName "a-b_2" = true from rfl]

/-- Witness for C3 (amended) at the concrete invalid name "a b". -/
theorem snapshot_invalid_name_spec_witness :
    SnapshotManager.snapExists "a b" ⟨true, []⟩
      = .error (SnapshotManager.invalidNameMsg "a b") :=
  (snapshot_invalid_name_spec "a b" c3state [] none 0 ⟨true, []⟩ rfl).2.2.2.2.1

/-- The snapshot file written by `save` for the given arguments. -/
def savedSnapshotFile (name : String) (st : SessionState) (obs : List SnapObservation)
    (desc : Option String) (now : Int) : SessionSnapshotFile :=
  { version := 1
    name := some name
    createdAt := some now
    description := desc
    sessionState := some st
    observations := some obs }

/-- C4: for a valid snapshot name, `save` succeeds, a subsequent `restore`
of the same name returns exactly the saved session state and observations,
and `list` afterwards includes an entry carrying that name, the given
description, and `skillCount` equal to the saved state's history length. -/
theorem snapshot_save_restore_roundtrip (name : String) (st : SessionState)
    (obs : List SnapObservation) (desc : Option String) (now : Int) (fs : SnapshotDir)
    (hname : SnapshotManager.isSafeName name = true) :
    (SnapshotManager.save name st obs desc now fs).1 = .ok () ∧
    SnapshotManager.restore name (SnapshotManager.save name st obs desc now fs).2
      = .ok (st, obs) ∧
    ∃ entry ∈ SnapshotManager.list (SnapshotManager.save name st obs desc now fs).2,
      entry.name = name ∧ entry.description = desc ∧
      entry.skillCount = st.history.length := by
  have hsan : SnapshotManager.sanitizeName name = .ok name := by
    simp [SnapshotManager.sanitizeName, hname]
  have hsave : SnapshotManager.save name st obs desc now fs
      = (.ok (), ⟨true, mapSet fs.files name (some (savedSnapshotFile name st obs desc now))⟩) := by
    simp [SnapshotManager.save, hsan, SnapshotManager.ensureDir, savedSnapshotFile]
  refine ⟨by rw [hsave], ?_, ?_⟩
  · rw [hsave]
    simp only [SnapshotManager.restore, hsan]
    rw [if_pos (by simp [SnapshotManager.fileExists, mapGet_mapSet_self])]
    rw [mapGet_mapSet_self]
    rfl
  · rw [hsave]
    refine ⟨⟨name, now, desc, st.history.length⟩, ?_, rfl, rfl, rfl⟩
    simp only [SnapshotManager.list, if_pos rfl, if_true]
    rw [List.mem_insertionSort, List.mem_filterMap]
    refine ⟨(name, some (savedSnapshotFile name st obs desc now)), mem_mapSet_self _ _ _, ?_⟩
    simp [SnapshotManager.listEntry, savedSnapshotFile]

/-- Witness for C4 at a concrete snapshot. -/
theorem snapshot_save_restore_roundtrip_witness :
    SnapshotManager.restore "snap-1"
        (SnapshotManager.save "snap-1" c3state [] (some "d") 5 ⟨false, []⟩).2
      = .ok (c3state, []) :=
  (snapshot_save_restore_roundtrip "snap-1" c3state [] (some "d") 5 ⟨false, []⟩ rfl).2.1

/- ### Timeline builder (timeline.ts) -/

/-- Kind tag of a timeline event. -/
inductive TimelineEventType
  | skill_start
  | skill_complete
  | task_progress
  | git_commit
  | observation
  | decision
  | snapshot
deriving DecidableEq, Repr

/-- One collected timeline event.  Of the free-form `details` payload only
the `skills` list is modelled, since it is the only detail the
filter/sort/paginate stage of `build` reads. -/
structure TimelineEvent where
  timestamp : Int
  type : TimelineEventType
  source : String
  summary : String
  detailsSkills : Option (List String) := none
deriving DecidableEq, Repr

/-- Options of `SessionTimeline.build`.  `includeGit` only switches a
collection source on or off and is absorbed into the collected events;
`since` is a parsed (valid) date. -/
structure TimelineOptions where
  since : Option Int := none
  types : Option (List TimelineEventType) := none
  limit : Option Nat := none
  skillFilter : Option String := none
deriving DecidableEq, Repr

/-- Result of `SessionTimeline.build` (the `sessionDate` field, a
formatting of the wall clock, is omitted). -/
structure TimelineData where
  projectPath : String
  events : List TimelineEvent
  totalCount : Nat
deriving DecidableEq, Repr

/-- JS `String.includes`: substring containment on the character lists. -/
def strContainsAux (sub : List Char) : List Char → Bool
  | [] => sub.isEmpty
  | c :: rest => sub.isPrefixOf (c :: rest) || strContainsAux sub rest

/-- JS `String.includes` on strings. -/
def strContains (s sub : String) : Bool :=
  strContainsAux sub.data s.data

namespace SessionTimeline

/-- The skill-filter predicate: the source contains the skill as a
substring, or the details-level skill list contains it. -/
def eventMatchesSkill (skill : String) (e : TimelineEvent) : Bool :=
  strContains e.source skill || (e.detailsSkills.getD []).contains skill

/-- The filter stage of `build` (lines 153-169): an optional inclusive
`since` lower bound, an optional non-empty set of type tags, and an
optional non-empty skill filter, in that order. -/
def filterEvents (opts : TimelineOptions) (events : List TimelineEvent) : List TimelineEvent :=
  let f1 := match opts.since with
    | some s => events.filter (fun e => s ≤ e.timestamp)
    | none => events
  let f2 := match opts.types with
    | some ts => if ts.length > 0 then f1.filter (fun e => ts.contains e.type) else f1
    | none => f1
  match opts.skillFilter with
  | some sk => if sk = "" then f2 else f2.filter (eventMatchesSkill sk)
  | none => f2

/-- Ascending timestamp order of the sort comparator
`(a, b) => a.timestamp - b.timestamp`. -/
def eventTimeLE (a b : TimelineEvent) : Prop :=
  a.timestamp ≤ b.timestamp

instance : DecidableRel eventTimeLE := fun a b => Int.decLe a.timestamp b.timestamp

instance : IsTotal TimelineEvent eventTimeLE :=
  ⟨fun a b => Int.le_total a.timestamp b.timestamp⟩

instance : IsTrans TimelineEvent eventTimeLE :=
  ⟨fun _ _ _ h₁ h₂ => le_trans h₁ h₂⟩

/-- The stable ascending-timestamp sort of `build`. -/
def sortEvents (l : List TimelineEvent) : List TimelineEvent :=
  List.insertionSort eventTimeLE l

/-- JS `array.slice(-limit)` for a natural `limit`: the last `limit`
elements — except that `-0` is `0`, so a zero limit yields the whole
array. -/
def sliceLast {α : Type} (limit : Nat) (l : List α) : List α :=
  if limit = 0 then l else l.drop (l.length - limit)

/-- The filter/sort/paginate stage of `SessionTimeline.build` (lines
44 and 153-181), taking the events collected from the seven sources as
input: apply the filters, sort ascending by timestamp, report the
pre-pagination count, and return the last `limit` (default 50) events. -/
def build (projectPath : String) (events : List TimelineEvent) (opts : TimelineOptions) :
    TimelineData :=
  let limit := opts.limit.getD 50
  let filtered := filterEvents opts events
  let sorted := sortEvents filtered
  { projectPath := projectPath
    events := sliceLast limit sorted
    totalCount := filtered.length }

end SessionTimeline

theorem sliceLast_eq_reverse_take {α : Type} (limit : Nat) (l : List α) (h : limit ≠ 0) :
    SessionTimeline.sliceLast limit l = ((l.reverse.take limit).reverse) := by
  rw [SessionTimeline.sliceLast, if_neg h]
  rw [List.take_reverse]
  simp

/-- Timeline event used by the C1 counterexample. -/
def c1event : TimelineEvent :=
  { timestamp := 5, type := .skill_start, source := "s", summary := "s started" }

/-- C1 counterexample: the claim quantifies over every options value and
asserts the returned events are exactly the chronologically latest
`limit` filtered events; with `limit := 0` that would be no events, but
`build` returns every filtered event (`slice(-0)` is `slice(0)`). -/
theorem timeline_limit_zero_cex :
    (SessionTimeline.build "p" [c1event] { limit := some 0 }).totalCount = 1 ∧
    (SessionTimeline.build "p" [c1event] { limit := some 0 }).events = [c1event] ∧
    [c1event] ≠ ([] : List TimelineEvent) := ⟨rfl, rfl, by simp⟩

/-- C1 (amended): for every collected event list and every options value
whose `limit` is not zero, `build` reports `totalCount` equal to the
number of events surviving the since/type/skill filters before
pagination, and returns exactly the chronologically latest `limit`
(default 50) filtered events — the reverse of the first `limit` of the
reversed sorted list — in ascending timestamp order, so
`events.length = min limit totalCount` and the oldest events are the
ones discarded.  (With `limit = 0` the whole filtered list is returned
instead; see C10.) -/
theorem timeline_build_pagination_spec (pp : String) (events : List TimelineEvent)
    (opts : TimelineOptions) (hlim : opts.limit ≠ some 0) :
    (SessionTimeline.build pp events opts).totalCount
        = (SessionTimeline.filterEvents opts events).length ∧
    (SessionTimeline.build pp events opts).events
        = ((SessionTimeline.sortEvents (SessionTimeline.filterEvents opts events)).reverse.take
            (opts.limit.getD 50)).reverse ∧
    (SessionTimeline.build pp events opts).events.length
        = min (opts.limit.getD 50) (SessionTimeline.filterEvents opts events).length ∧
    (SessionTimeline.build pp events opts).events.Pairwise SessionTimeline.eventTimeLE := by
  have hne : opts.limit.getD 50 ≠ 0 := by
    cases hl : opts.limit with
    | none => simp
    | some n =>
      simp only [Option.getD_some]
      intro h0
      exact hlim (by rw [hl, h0])
  have hev : (SessionTimeline.build pp events opts).events
      = SessionTimeline.sliceLast (opts.limit.getD 50)
          (SessionTimeline.sortEvents (SessionTimeline.filterEvents opts events)) := rfl
  have hsortlen : (SessionTimeline.sortEvents (SessionTimeline.filterEvents opts events)).length
      = (SessionTimeline.filterEvents opts events).length :=
    (List.perm_insertionSort _ _).length_eq
  refine ⟨rfl, ?_, ?_, ?_⟩
  · rw [hev, sliceLast_eq_reverse_take _ _ hne]
  · rw [hev, SessionTimeline.sliceLast, if_neg hne, List.length_drop, hsortlen]
    omega
  · rw [hev, SessionTimeline.sliceLast, if_neg hne]
    exact (List.sorted_insertionSort SessionTimeline.eventTimeLE _).sublist
      (List.drop_sublist _ _)

/-- Events used by the C1 and C10 witnesses. -/
def c1witnessEvents : List TimelineEvent :=
  [{ timestamp := 3, type := .decision, source := "user", summary := "a" },
   { timestamp := 1, type := .skill_start, source := "s", summary := "b" },
   { timestamp := 2, type := .snapshot, source := "snapshot", summary := "c" }]

/-- Witness for C1 (amended) at a concrete three-event collection with
limit 2: the two latest events are returned. -/
theorem timeline_build_pagination_spec_witness :
    (SessionTimeline.build "p" c1witnessEvents { limit := some 2 }).events
      = ((SessionTimeline.sortEvents
            (SessionTimeline.filterEvents { limit := some 2 } c1witnessEvents)).reverse.take
          2).reverse :=
  (timeline_build_pagination_spec "p" c1witnessEvents { limit := some 2 } (by decide)).2.1

/-- C10: with `options.limit = 0`, pagination is effectively disabled:
the returned events are all filtered events in ascending order and
`events.length = totalCount`, because the final `slice(-0)` returns the
whole array. -/
theorem timeline_limit_zero_disables_pagination (pp : String) (events : List TimelineEvent)
    (opts : TimelineOptions) (h : opts.limit = some 0) :
    (SessionTimeline.build pp events opts).events
        = SessionTimeline.sortEvents (SessionTimeline.filterEvents opts events) ∧
    (SessionTimeline.build pp events opts).events.length
        = (SessionTimeline.build pp events opts).totalCount := by
  have hev : (SessionTimeline.build pp events opts).events
      = SessionTimeline.sliceLast (opts.limit.getD 50)
          (SessionTimeline.sortEvents (SessionTimeline.filterEvents opts events)) := rfl
  have h0 : opts.limit.getD 50 = 0 := by rw [h]; rfl
  constructor
  · rw [hev, h0, SessionTimeline.sliceLast, if_pos rfl]
  · rw [hev, h0, SessionTimeline.sliceLast, if_pos rfl]
    exact (List.perm_insertionSort _ _).length_eq

/-- Witness for C10 at a concrete collection with limit 0: all three
events are returned. -/
theorem timeline_limit_zero_disables_pagination_witness :
    (SessionTimeline.build "p" c1witnessEvents { limit := some 0 }).events.length
      = (SessionTimeline.build "p" c1witnessEvents { limit := some 0 }).totalCount :=
  (timeline_limit_zero_disables_pagination "p" c1witnessEvents { limit := some 0 } rfl).2

/- ### Agent-label resolution (handoff.ts, session-explainer.ts) -/

/-- The slice of the loaded configuration both builders read. -/
structure SkillkitConfig where
  agent : Option String
deriving DecidableEq, Repr

/-- Fallback label from the current execution's skill source: the source
when present and truthy (non-empty), else "unknown". -/
def skillSourceFallback (src : Option String) : String :=
  match src with
  | some s => if s = "" then "unknown" else s
  | none => "unknown"

namespace SessionHandoff

/-- Agent resolution of `SessionHandoff.generate` (lines 40-52): start
from "unknown"; a successfully loaded config agent that is truthy and not
"universal" wins; otherwise, when the label is still "unknown" and the
current execution has a truthy skill source, that source is used. -/
def resolveFromAgent (cfg : Except Unit SkillkitConfig) (src : Option String) : String :=
  let agent := "unknown"
  let agent := match cfg with
    | .ok c =>
      match c.agent with
      | some a => if a ≠ "" ∧ a ≠ "universal" then a else agent
      | none => agent
    | .error _ => agent
  if agent = "unknown" then
    match src with
    | some s => if s ≠ "" then s else agent
    | none => agent
  else agent

end SessionHandoff

namespace SessionExplainer

/-- Agent resolution of `SessionExplainer.explain` (lines 50-61), for a
present session state: a successfully loaded config agent that is truthy
and not "universal" wins, else the truthy skill source of the current
execution, else "unknown"; a config load failure also falls back to the
skill source. -/
def resolveAgent (cfg : Except Unit SkillkitConfig) (src : Option String) : String :=
  match cfg with
  | .ok c =>
    match c.agent with
    | some a =>
      if a ≠ "" ∧ a ≠ "universal" then a
      else match src with
        | some s => if s ≠ "" then s else "unknown"
        | none => "unknown"
    | none =>
      match src with
      | some s => if s ≠ "" then s else "unknown"
      | none => "unknown"
  | .error _ =>
    match src with
    | some s => if s ≠ "" then s else "unknown"
    | none => "unknown"

end SessionExplainer

/-- C9: in both the handoff builder and the session explainer, a loaded
configuration whose agent field is "universal" is treated exactly like a
configuration with no agent at all: the label falls back to the current
execution's skill source when present (and non-empty), else to
"unknown" — so the config value "universal" itself never becomes the
label. -/
theorem universal_agent_treated_as_unconfigured (src : Option String) :
    SessionHandoff.resolveFromAgent (.ok ⟨some "universal"⟩) src
        = SessionHandoff.resolveFromAgent (.ok ⟨none⟩) src ∧
    SessionExplainer.resolveAgent (.ok ⟨some "universal"⟩) src
        = SessionExplainer.resolveAgent (.ok ⟨none⟩) src ∧
    SessionHandoff.resolveFromAgent (.ok ⟨some "universal"⟩) src
        = skillSourceFallback src ∧
    SessionExplainer.resolveAgent (.ok ⟨some "universal"⟩) src
        = skillSourceFallback src := by
  refine ⟨?_, ?_, ?_, ?_⟩ <;>
    · cases src with
      | none => rfl
      | some s =>
        by_cases hs : s = "" <;>
          simp [SessionHandoff.resolveFromAgent, SessionExplainer.resolveAgent,
            skillSourceFallback, hs]

/- ### Lineage builder (lineage.ts) -/

/-- Observation type tag. -/
inductive ObsType
  | error
  | solution
  | pattern
deriving DecidableEq, Repr

/-- Observation content as read by the lineage builder: only the optional
file list is inspected (`Array.isArray(obs.content?.files)`). -/
structure ObsContent where
  files : Option (List String) := none
deriving DecidableEq, Repr

/-- Observation as read by the lineage builder (agent, session id and
relevance are never inspected there). -/
structure Observation where
  id : String
  timestamp : Int
  type : ObsType
  content : ObsContent
deriving DecidableEq, Repr

/-- Aggregated impact entry for one skill. -/
structure SkillLineageEntry where
  skillName : String
  executions : Nat
  totalDurationMs : Int
  commits : List String
  filesModified : List String
  observationIds : List String
  firstSeen : Int
  lastSeen : Int
deriving DecidableEq, Repr

/-- Aggregated impact entry for one file. -/
structure FileLineage where
  path : String
  skills : List String
  commitCount : Nat
  lastModified : Int
deriving DecidableEq, Repr

/-- Summary statistics of the lineage. -/
structure LineageStats where
  totalSkillExecutions : Nat
  totalCommits : Nat
  totalFilesChanged : Nat
  mostImpactfulSkill : Option String
  mostChangedFile : Option String
  errorProneFiles : List String
deriving DecidableEq, Repr

/-- Result of `SkillLineage.build`. -/
structure LineageData where
  projectPath : String
  skills : List SkillLineageEntry
  files : List FileLineage
  stats : LineageStats
deriving DecidableEq, Repr

/-- Options of `SkillLineage.build` (`since` is a parsed date). -/
structure LineageOptions where
  skill : Option String := none
  file : Option String := none
  limit : Option Nat := none
  since : Option Int := none
deriving DecidableEq, Repr

/-- Mutable aggregation state of `build`: the skill map and the three
per-file maps, all insertion-ordered. -/
structure BuildAcc where
  skillMap : List (String × SkillLineageEntry)
  fileSkillMap : List (String × List String)
  fileCommitCount : List (String × Nat)
  fileLastModified : List (String × Int)
deriving Repr

namespace SkillLineage

/-- Empty aggregation state. -/
def emptyAcc : BuildAcc := ⟨[], [], [], []⟩

/-- Fresh lineage entry for a skill first seen at `seen`. -/
def newEntry (skillName : String) (seen : Int) : SkillLineageEntry :=
  { skillName := skillName
    executions := 0
    totalDurationMs := 0
    commits := []
    filesModified := []
    observationIds := []
    firstSeen := seen
    lastSeen := seen }

/-- The `continue`-style since guard: skip records strictly before the
since date. -/
def sinceSkip : Option Int → Int → Bool
  | some s, t => decide (t < s)
  | none, _ => false

/-- Register the file → skill association. -/
def bumpFileSkill (acc : BuildAcc) (f skill : String) : BuildAcc :=
  { acc with fileSkillMap := mapSet acc.fileSkillMap f (setAdd ((mapGet acc.fileSkillMap f).getD []) skill) }

/-- Add `n` to the per-file commit counter. -/
def addFileCommits (acc : BuildAcc) (f : String) (n : Nat) : BuildAcc :=
  { acc with fileCommitCount := mapSet acc.fileCommitCount f (((mapGet acc.fileCommitCount f).getD 0) + n) }

/-- Raise the per-file last-modified timestamp to `ts` if later. -/
def touchFileLM (acc : BuildAcc) (f : String) (ts : Int) : BuildAcc :=
  let t := match mapGet acc.fileLastModified f with
    | some t0 => if ts > t0 then ts else t0
    | none => ts
  { acc with fileLastModified := mapSet acc.fileLastModified f t }

/-- Inner loop of the history phase over one modified file. -/
def histFileStep (skillName : String) (commitsLen : Nat) (ts : Int) (acc : BuildAcc)
    (f : String) : BuildAcc :=
  touchFileLM (addFileCommits (bumpFileSkill acc f skillName) f commitsLen) f ts

/-- History phase step for one `ExecutionHistory` record: accumulate
executions, duration, commits, files and the seen window, then register
each modified file. -/
def histStep (sinceDate : Option Int) (acc : BuildAcc) (hist : ExecutionHistory) : BuildAcc :=
  if sinceSkip sinceDate hist.completedAt then acc
  else
    let e := (mapGet acc.skillMap hist.skillName).getD (newEntry hist.skillName hist.completedAt)
    let e := { e with
      executions := e.executions + 1
      totalDurationMs := e.totalDurationMs + hist.durationMs
      commits := e.commits ++ hist.commits
      filesModified := e.filesModified ++ hist.filesModified }
    let e := { e with
      firstSeen := if hist.completedAt < e.firstSeen then hist.completedAt else e.firstSeen
      lastSeen := if e.lastSeen < hist.completedAt then hist.completedAt else e.lastSeen }
    let acc := { acc with skillMap := mapSet acc.skillMap hist.skillName e }
    hist.filesModified.foldl (histFileStep hist.skillName hist.commits.length hist.completedAt) acc

/-- Inner loop of the current-execution phase over one task file. -/
def execTaskFileStep (skillName : String) (hasCommit : Bool) (startedAt : Int)
    (acc : BuildAcc) (f : String) : BuildAcc :=
  let acc := bumpFileSkill acc f skillName
  let acc := if hasCommit then addFileCommits acc f 1 else acc
  touchFileLM acc f startedAt

/-- Current-execution phase step over one task: push its commit and
files onto the entry and register each file. -/
def execTaskStep (skillName : String) (startedAt : Int)
    (st : SkillLineageEntry × BuildAcc) (task : SessionTask) :
    SkillLineageEntry × BuildAcc :=
  let e := st.1
  let e := match task.commitSha with
    | some c => { e with commits := e.commits ++ [c] }
    | none => e
  let e := { e with filesModified := e.filesModified ++ (task.filesModified.getD []) }
  let acc := (task.filesModified.getD []).foldl
    (execTaskFileStep skillName task.commitSha.isSome startedAt) st.2
  (e, acc)

/-- Current-execution phase: count it as one in-progress execution with
duration `now − startedAt`, walk its tasks, then extend the seen window
(`lastSeen` becomes the current time). -/
def execPhase (sinceDate : Option Int) (now : Int) (acc : BuildAcc) :
    Option CurrentExecution → BuildAcc
  | none => acc
  | some exec =>
    if (match sinceDate with | some s => decide (exec.startedAt ≥ s) | none => true) then
      let e := (mapGet acc.skillMap exec.skillName).getD (newEntry exec.skillName exec.startedAt)
      let e := { e with
        executions := e.executions + 1
        totalDurationMs := e.totalDurationMs + (now - exec.startedAt) }
      let r := exec.tasks.foldl (execTaskStep exec.skillName exec.startedAt) (e, acc)
      let e := { r.1 with
        firstSeen := if exec.startedAt < r.1.firstSeen then exec.startedAt else r.1.firstSeen
        lastSeen := now }
      { r.2 with skillMap := mapSet r.2.skillMap exec.skillName e }
    else acc

/-- Inner loop of the activity phase over one changed file: register the
file → skill association, count the commit once per activity (tracked by
`countedFiles`, the second component), and raise the last-modified
timestamp. -/
def actFileStep (skill : String) (committedAt : Int) (st : BuildAcc × List String)
    (f : String) : BuildAcc × List String :=
  let acc := bumpFileSkill st.1 f skill
  let p := if f ∈ st.2 then (acc, st.2) else (addFileCommits acc f 1, st.2 ++ [f])
  (touchFileLM p.1 f committedAt, p.2)

/-- Activity phase step for one active skill of one logged commit: add
the commit SHA to an already-tracked skill entry (if not yet present),
then walk the changed files. -/
def actSkillStep (a : SkillActivity) (st : BuildAcc × List String) (skill : String) :
    BuildAcc × List String :=
  let acc := match mapGet st.1.skillMap skill with
    | some e =>
      if a.commitSha ∈ e.commits then st.1
      else { st.1 with skillMap := mapSet st.1.skillMap skill { e with commits := e.commits ++ [a.commitSha] } }
    | none => st.1
  a.filesChanged.foldl (actFileStep skill a.committedAt) (acc, st.2)

/-- Activity phase step for one logged commit. -/
def activityStep (sinceDate : Option Int) (acc : BuildAcc) (a : SkillActivity) : BuildAcc :=
  if sinceSkip sinceDate a.committedAt then acc
  else (a.activeSkills.foldl (actSkillStep a) (acc, [])).1

/-- Observation attribution to one skill entry: record the observation id
when its timestamp falls inside the entry's inclusive seen window. -/
def obsEntryUpdate (obs : Observation) (p : String × SkillLineageEntry) :
    String × SkillLineageEntry :=
  if p.2.firstSeen ≤ obs.timestamp ∧ obs.timestamp ≤ p.2.lastSeen then
    if obs.id ∈ p.2.observationIds then p
    else (p.1, { p.2 with observationIds := p.2.observationIds ++ [obs.id] })
  else p

/-- Observation phase step: attribute the observation to every entry
whose window contains it, and collect error-prone files from error
observations carrying a file list. -/
def obsStep (sinceDate : Option Int) (st : BuildAcc × List String) (obs : Observation) :
    BuildAcc × List String :=
  if sinceSkip sinceDate obs.timestamp then st
  else
    let acc := { st.1 with skillMap := st.1.skillMap.map (obsEntryUpdate obs) }
    let errFiles := if obs.type == ObsType.error && obs.content.files.isSome
      then st.2 ++ obs.content.files.getD [] else st.2
    (acc, errFiles)

/-- Full aggregation over the four sources, in source order: history,
current execution, activity log (its 500 most recent entries),
observations.  Returns the aggregation state and the raw error-prone
file list. -/
def collect (state : Option SessionState) (alog : ActivityLogData)
    (observations : List Observation) (now : Int) (sinceDate : Option Int) :
    BuildAcc × List String :=
  let acc := (match state with | some st => st.history | none => []).foldl
    (histStep sinceDate) emptyAcc
  let acc := execPhase sinceDate now acc (state.bind (fun st => st.currentExecution))
  let acc := (ActivityLog.getRecent 500 alog).foldl (activityStep sinceDate) acc
  observations.foldl (obsStep sinceDate) (acc, [])

/-- The per-entry dedup pass `[...new Set(...)]` over commits and files. -/
def dedupEntry (p : String × SkillLineageEntry) : String × SkillLineageEntry :=
  (p.1, { p.2 with
    commits := jsSetDedup p.2.commits
    filesModified := jsSetDedup p.2.filesModified })

/-- The skill entries drawn from the map after the dedup pass. -/
def rawSkills (acc : BuildAcc) : List SkillLineageEntry :=
  (acc.skillMap.map dedupEntry).map Prod.snd

/-- The file entries drawn from the file maps. -/
def rawFiles (acc : BuildAcc) : List FileLineage :=
  acc.fileSkillMap.map (fun p =>
    { path := p.1
      skills := p.2
      commitCount := (mapGet acc.fileCommitCount p.1).getD 0
      lastModified := (mapGet acc.fileLastModified p.1).getD 0 })

/-- The optional skill and file filters, in source order: a truthy
`skill` option keeps the entries of that one skill and the files it
touched; a truthy `file` option then keeps files matching by exact path
or substring and the skills touching a surviving file. -/
def applyEntityFilters (opts : LineageOptions) (skills : List SkillLineageEntry)
    (files : List FileLineage) : List SkillLineageEntry × List FileLineage :=
  let sf : List SkillLineageEntry × List FileLineage :=
    match opts.skill with
    | some sk =>
      if sk = "" then (skills, files)
      else
        let skills2 := skills.filter (fun s => s.skillName == sk)
        (skills2, files.filter (fun f => (skills2.flatMap (fun s => s.filesModified)).contains f.path))
    | none => (skills, files)
  match opts.file with
  | some fl =>
    if fl = "" then sf
    else
      let files2 := sf.2.filter (fun f => f.path == fl || strContains f.path fl)
      (sf.1.filter (fun s => (files2.flatMap (fun f => f.skills)).contains s.skillName), files2)
  | none => sf

/-- Descending file-count order of the skill sort comparator
`(a, b) => b.filesModified.length - a.filesModified.length`. -/
def skillLE (a b : SkillLineageEntry) : Prop :=
  b.filesModified.length ≤ a.filesModified.length

instance : DecidableRel skillLE :=
  fun a b => Nat.decLe b.filesModified.length a.filesModified.length

instance : IsTotal SkillLineageEntry skillLE :=
  ⟨fun a b => by simp only [skillLE]; omega⟩

instance : IsTrans SkillLineageEntry skillLE :=
  ⟨fun a b c h₁ h₂ => by simp only [skillLE] at *; omega⟩

/-- Descending (skill count, commit count) lexicographic order of the
file sort comparator
`(a, b) => b.skills.length - a.skills.length || b.commitCount - a.commitCount`. -/
def fileLE (a b : FileLineage) : Prop :=
  b.skills.length < a.skills.length ∨
    (b.skills.length = a.skills.length ∧ b.commitCount ≤ a.commitCount)

instance : DecidableRel fileLE :=
  fun a b => inferInstanceAs (Decidable (b.skills.length < a.skills.length ∨ _))

instance : IsTotal FileLineage fileLE :=
  ⟨fun a b => by simp only [fileLE]; omega⟩

instance : IsTrans FileLineage fileLE :=
  ⟨fun a b c h₁ h₂ => by simp only [fileLE] at *; omega⟩

/-- `SkillLineage.build`: aggregate, dedup, filter, sort both lists
(stable, descending), apply the truthy limit to each, and derive the
summary statistics. -/
def build (projectPath : String) (state : Option SessionState) (alog : ActivityLogData)
    (observations : List Observation) (now : Int) (opts : LineageOptions) : LineageData :=
  let c := collect state alog observations now opts.since
  let sf := applyEntityFilters opts (rawSkills c.1) (rawFiles c.1)
  let skills := List.insertionSort skillLE sf.1
  let files := List.insertionSort fileLE sf.2
  let lf := match opts.limit with
    | some n => if n ≠ 0 then (skills.take n, files.take n) else (skills, files)
    | none => (skills, files)
  let uniqueErrorFiles := jsSetDedup c.2
  let allCommits := jsSetDedup (lf.1.flatMap (fun s => s.commits))
  let allFiles := jsSetDedup (lf.1.flatMap (fun s => s.filesModified))
  { projectPath := projectPath
    skills := lf.1
    files := lf.2
    stats := {
      totalSkillExecutions := lf.1.foldl (fun sum s => sum + s.executions) 0
      totalCommits := allCommits.length
      totalFilesChanged := allFiles.length
      mostImpactfulSkill := lf.1.head?.map (fun s => s.skillName)
      mostChangedFile := lf.2.head?.map (fun f => f.path)
      errorProneFiles := uniqueErrorFiles.take 5 } }

end SkillLineage

theorem mem_rawSkills_nodup (acc : BuildAcc) :
    ∀ e ∈ SkillLineage.rawSkills acc, e.commits.Nodup ∧ e.filesModified.Nodup := by
  intro e he
  simp only [SkillLineage.rawSkills, List.map_map, List.mem_map] at he
  obtain ⟨p, _, rfl⟩ := he
  exact ⟨jsSetDedup_nodup _, jsSetDedup_nodup _⟩

theorem applyEntityFilters_skills_sub (opts : LineageOptions)
    (skills : List SkillLineageEntry) (files : List FileLineage) :
    ∀ e ∈ (SkillLineage.applyEntityFilters opts skills files).1, e ∈ skills := by
  obtain ⟨osk, ofl, olim, osin⟩ := opts
  intro e he
  dsimp only [SkillLineage.applyEntityFilters] at he
  rcases osk with _ | sk <;> rcases ofl with _ | fl <;> dsimp only at he
  · exact he
  · split at he
    · exact he
    · exact List.mem_of_mem_filter he
  · split at he
    · exact he
    · exact List.mem_of_mem_filter he
  · split at he
    · split at he
      · exact he
      · exact List.mem_of_mem_filter he
    · replace he := List.mem_of_mem_filter he
      split at he
      · exact he
      · exact List.mem_of_mem_filter he

theorem mem_build_skills (pp : String) (state : Option SessionState) (alog : ActivityLogData)
    (obs : List Observation) (now : Int) (opts : LineageOptions) :
    ∀ e ∈ (SkillLineage.build pp state alog obs now opts).skills,
      e ∈ SkillLineage.rawSkills (SkillLineage.collect state alog obs now opts.since).1 := by
  obtain ⟨osk, ofl, olim, osin⟩ := opts
  intro e he
  dsimp only [SkillLineage.build] at he
  have he2 : e ∈ List.insertionSort SkillLineage.skillLE
      (SkillLineage.applyEntityFilters ⟨osk, ofl, olim, osin⟩
        (SkillLineage.rawSkills (SkillLineage.collect state alog obs now osin).1)
        (SkillLineage.rawFiles (SkillLineage.collect state alog obs now osin).1)).1 := by
    rcases olim with _ | n
    · exact he
    · dsimp only at he
      split at he
      · exact List.mem_of_mem_take he
      · exact he
  rw [List.mem_insertionSort] at he2
  exact applyEntityFilters_skills_sub _ _ _ e he2

/-- C6: every skill entry produced by `SkillLineage.build` has
duplicate-free `commits` and `filesModified` lists, whatever the session
history, current execution, activity log, observations and options are;
and the dedup the build applies (`[...new Set(l)]`) is exactly
order-preserving first-occurrence deduplication (`keepFirsts`). -/
theorem lineage_entry_dedup_spec (pp : String) (state : Option SessionState)
    (alog : ActivityLogData) (obs : List Observation) (now : Int) (opts : LineageOptions) :
    (∀ e ∈ (SkillLineage.build pp state alog obs now opts).skills,
      e.commits.Nodup ∧ e.filesModified.Nodup) ∧
    ∀ l : List String, jsSetDedup l = keepFirsts l := by
  refine ⟨fun e he => ?_, fun l => jsSetDedup_eq_keepFirsts l⟩
  exact mem_rawSkills_nodup _ e (mem_build_skills pp state alog obs now opts e he)

/-- First history record of the spec's worked example. -/
def c8history1 : ExecutionHistory :=
  { skillName := "code-simplifier"
    skillSource := ""
    completedAt := 1000
    durationMs := 120000
    status := .completed
    commits := ["abc1234", "def5678"]
    filesModified := ["src/index.ts", "src/utils.ts"] }

/-- Second history record of the spec's worked example. -/
def c8history2 : ExecutionHistory :=
  { skillName := "code-simplifier"
    skillSource := ""
    completedAt := 2000
    durationMs := 60000
    status := .completed
    commits := ["ghi9012"]
    filesModified := ["src/index.ts"] }

/-- Third history record of the spec's worked example. -/
def c8history3 : ExecutionHistory :=
  { skillName := "pro-workflow"
    skillSource := ""
    completedAt := 3000
    durationMs := 180000
    status := .completed
    commits := ["jkl3456"]
    filesModified := ["src/index.ts", "README.md"] }

/-- Session state of the spec's worked example: exactly the three history
records, no current execution. -/
def c8state : SessionState :=
  { lastActivity := 3000
    projectPath := "p"
    history := [c8history1, c8history2, c8history3] }

/-- Witness for C6 at the worked example: the first produced entry has a
duplicate-free commit list. -/
theorem lineage_entry_dedup_spec_witness :
    ∃ e, e ∈ (SkillLineage.build "p" (some c8state) ⟨1, []⟩ [] 0 {}).skills ∧
      e.commits.Nodup :=
  ⟨(SkillLineage.build "p" (some c8state) ⟨1, []⟩ [] 0 {}).skills.headD (SkillLineage.newEntry "" 0),
    by decide,
    ((lineage_entry_dedup_spec "p" (some c8state) ⟨1, []⟩ [] 0 {}).1
      ((SkillLineage.build "p" (some c8state) ⟨1, []⟩ [] 0 {}).skills.headD (SkillLineage.newEntry "" 0))
      (by decide)).1⟩

/-- C7: in the output of `SkillLineage.build`, the skills list is sorted
descending by number of files modified and the files list descending by
(skill count, commit count); providing a (truthy, i.e. nonzero) `limit`
yields exactly the first `limit` elements of the corresponding unlimited
sorted lists, so the limit is applied after the sort, and the limited
lists are sorted the same way. -/
theorem lineage_ranking_spec (pp : String) (state : Option SessionState)
    (alog : ActivityLogData) (obs : List Observation) (now : Int) (opts : LineageOptions)
    (n : Nat) (hn : n ≠ 0) :
    (SkillLineage.build pp state alog obs now { opts with limit := none }).skills.Pairwise SkillLineage.skillLE ∧
    (SkillLineage.build pp state alog obs now { opts with limit := none }).files.Pairwise SkillLineage.fileLE ∧
    (SkillLineage.build pp state alog obs now { opts with limit := some n }).skills
      = (SkillLineage.build pp state alog obs now { opts with limit := none }).skills.take n ∧
    (SkillLineage.build pp state alog obs now { opts with limit := some n }).files
      = (SkillLineage.build pp state alog obs now { opts with limit := none }).files.take n ∧
    (SkillLineage.build pp state alog obs now { opts with limit := some n }).skills.Pairwise SkillLineage.skillLE ∧
    (SkillLineage.build pp state alog obs now { opts with limit := some n }).files.Pairwise SkillLineage.fileLE := by
  obtain ⟨osk, ofl, olim, osin⟩ := opts
  have hS : (SkillLineage.build pp state alog obs now ⟨osk, ofl, some n, osin⟩).skills
      = (SkillLineage.build pp state alog obs now ⟨osk, ofl, none, osin⟩).skills.take n := by
    dsimp only [SkillLineage.build]
    rw [if_pos hn]
    rfl
  have hF : (SkillLineage.build pp state alog obs now ⟨osk, ofl, some n, osin⟩).files
      = (SkillLineage.build pp state alog obs now ⟨osk, ofl, none, osin⟩).files.take n := by
    dsimp only [SkillLineage.build]
    rw [if_pos hn]
    rfl
  have pS : (SkillLineage.build pp state alog obs now ⟨osk, ofl, none, osin⟩).skills.Pairwise
      SkillLineage.skillLE :=
    List.sorted_insertionSort SkillLineage.skillLE _
  have pF : (SkillLineage.build pp state alog obs now ⟨osk, ofl, none, osin⟩).files.Pairwise
      SkillLineage.fileLE :=
    List.sorted_insertionSort SkillLineage.fileLE _
  refine ⟨pS, pF, hS, hF, ?_, ?_⟩
  · rw [hS]
    exact pS.sublist (List.take_sublist _ _)
  · rw [hF]
    exact pF.sublist (List.take_sublist _ _)

/-- Witness for C7 at the worked example with limit 1. -/
theorem lineage_ranking_spec_witness :
    (SkillLineage.build "p" (some c8state) ⟨1, []⟩ [] 0 { limit := some 1 }).skills
      = (SkillLineage.build "p" (some c8state) ⟨1, []⟩ [] 0 { limit := none }).skills.take 1 :=
  (lineage_ranking_spec "p" (some c8state) ⟨1, []⟩ [] 0 {} 1 (by decide)).2.2.1

/-- C8: on the spec's worked example (three history records, no current
execution, activity log or observations), the lineage has exactly 2 skill
entries, the first is "code-simplifier" with executions 2, total duration
180000 ms, 3 distinct commits, and a file list containing both
src/index.ts and src/utils.ts. -/
theorem lineage_example_spec :
    (SkillLineage.build "p" (some c8state) ⟨1, []⟩ [] 0 {}).skills.length = 2 ∧
    ((SkillLineage.build "p" (some c8state) ⟨1, []⟩ [] 0 {}).skills.headD
        (SkillLineage.newEntry "" 0)).skillName = "code-simplifier" ∧
    ((SkillLineage.build "p" (some c8state) ⟨1, []⟩ [] 0 {}).skills.headD
        (SkillLineage.newEntry "" 0)).executions = 2 ∧
    ((SkillLineage.build "p" (some c8state) ⟨1, []⟩ [] 0 {}).skills.headD
        (SkillLineage.newEntry "" 0)).totalDurationMs = 180000 ∧
    ((SkillLineage.build "p" (some c8state) ⟨1, []⟩ [] 0 {}).skills.headD
        (SkillLineage.newEntry "" 0)).commits.length = 3 ∧
    "src/index.ts" ∈ ((SkillLineage.build "p" (some c8state) ⟨1, []⟩ [] 0 {}).skills.headD
        (SkillLineage.newEntry "" 0)).filesModified ∧
    "src/utils.ts" ∈ ((SkillLineage.build "p" (some c8state) ⟨1, []⟩ [] 0 {}).skills.headD
        (SkillLineage.newEntry "" 0)).filesModified := by
  decide
